import Mathlib

/-!
Verification of the TIMIT multitask-CTC dataset reader
(`experiments/timit/data/read_dataset_multitask_ctc.py`).

The development shallowly embeds the class `DataSet`:

* the constructor checks (`data_type` validity, `batch_size % num_gpu`,
  the character/phone label-count check, `self.batch_size = batch_size * num_gpu`),
* the epoch-cyclic index sampler inside `next_batch` (the mutable set
  `self.rest`, its sorted and random branches, the epoch reset),
* the batch assembly (zero-padded feature tensor, `-1`-padded label
  tensors, per-example sequence lengths and names),
* the multi-GPU split step (`tf.split`, which requires the batch axis to
  be evenly divisible) and the session guard.

Python sets of the indices `0, 1, ..., data_num-1` iterate in ascending
order (small ints hash to themselves), so `list(self.rest)` is embedded
as the ascending sort of a `Finset ℕ`.  `random.sample` and
`random.shuffle` are nondeterministic; they are embedded as explicit
functional parameters (`sample`, `shuffle`) about which theorems assume
only what the Python library guarantees (a sample is a duplicate-free
selection from the population of the requested size; a shuffle is a
permutation).  Feature values are embedded as `Int` (their numeric type
is irrelevant to the claims; only `0`-padding matters), label values as
`Int` (padding sentinel `-1`).
-/

namespace TimitMultitaskCtc

/-- One corpus example: its (post frame-stacking) feature matrix of shape
`frame_num × input_size`, its character label sequence, its phone label
sequence and its utterance name (`self.input_list[i]`,
`self.label_char_list[i]`, `self.label_phone_list[i]`,
`basename(self.input_paths[i]).split('.')[0]`). -/
structure ExampleData where
  input : List (List Int)
  labelChar : List Int
  labelPhone : List Int
  name : String
deriving Repr, DecidableEq

/-- Default example used for out-of-range indexing in the embedding
(Python would raise; all theorems keep indices in range). -/
def dfltExample : ExampleData :=
  { input := [], labelChar := [], labelPhone := [], name := "" }

/-- Frame count of the example at index `x`:
`self.input_list[x].shape[0]`. -/
def framesAt (store : List ExampleData) (x : ℕ) : ℕ :=
  (store.getD x dfltExample).input.length

/-- Character-label length of the example at index `x`:
`len(self.label_char_list[x])`. -/
def charLenAt (store : List ExampleData) (x : ℕ) : ℕ :=
  (store.getD x dfltExample).labelChar.length

/-- Phone-label length of the example at index `x`:
`len(self.label_phone_list[x])`. -/
def phoneLenAt (store : List ExampleData) (x : ℕ) : ℕ :=
  (store.getD x dfltExample).labelPhone.length

/-- `list(self.rest)`: a CPython set of small contiguous ints iterates in
ascending order, hence the ascending enumeration of the finite set,
computed by filtering an initial segment of `ℕ` that covers it (see
`mem_listOfRest`, `listOfRest_sorted`, `listOfRest_coe`). -/
def listOfRest (rest : Finset ℕ) : List ℕ :=
  (List.range (rest.sup id + 1)).filter (fun x => x ∈ rest)

/-- Result of one index-drawing pass of `next_batch`: the drawn index
list in its order before any `random.shuffle`, the new value of
`self.rest`, whether the `else` (epoch-final, resetting) branch ran, and
whether `random.shuffle` is invoked on the drawn list. -/
structure DrawResult where
  indices : List ℕ
  newRest : Finset ℕ
  isFinal : Bool
  shuffled : Bool
deriving DecidableEq

/-- Sorted-branch index draw (`if self.is_sorted:` of `next_batch`,
lines 131–151): take the first `batch_size` elements of `list(self.rest)`
while more than `batch_size` remain, otherwise take all of them and
reset `self.rest` to `set(range(self.data_num))`.  `random.shuffle`
(line 151) runs in both cases. -/
def drawSorted (data_num batch_size : ℕ) (rest : Finset ℕ) : DrawResult :=
  if batch_size < rest.card then
    { indices := (listOfRest rest).take batch_size
      newRest := rest \ ((listOfRest rest).take batch_size).toFinset
      isFinal := false
      shuffled := true }
  else
    { indices := listOfRest rest
      newRest := Finset.range data_num
      isFinal := true
      shuffled := true }

/-- Random-branch index draw (`else:` of `next_batch`, lines 179–192):
`random.sample` (embedded as the parameter `sample`) while more than
`batch_size` remain, otherwise all remaining indices are taken, the pool
is reset, and `random.shuffle` (line 192) runs — only in this final
case. -/
def drawRandom (data_num batch_size : ℕ) (sample : Finset ℕ → ℕ → List ℕ)
    (rest : Finset ℕ) : DrawResult :=
  if batch_size < rest.card then
    { indices := sample rest batch_size
      newRest := rest \ (sample rest batch_size).toFinset
      isFinal := false
      shuffled := false }
  else
    { indices := listOfRest rest
      newRest := Finset.range data_num
      isFinal := true
      shuffled := true }

/-- The non-final selection of the sorted branch:
`list(self.rest)[:batch_size]`. -/
def takeSelect (rest : Finset ℕ) (batch_size : ℕ) : List ℕ :=
  (listOfRest rest).take batch_size

/-- Index draw with the non-final selection abstracted, covering both
branches of `next_batch`: the sorted branch instantiates `select` with
`takeSelect`, the random branch with `random.sample`. -/
def drawWith (select : Finset ℕ → ℕ → List ℕ) (data_num batch_size : ℕ)
    (rest : Finset ℕ) : List ℕ × Finset ℕ :=
  if batch_size < rest.card then
    (select rest batch_size, rest \ (select rest batch_size).toFinset)
  else
    (listOfRest rest, Finset.range data_num)

/-- The index batches drawn by repeatedly calling `next_batch` from the
state `rest`, up to and including the epoch-final (resetting) draw.
`fuel` bounds the recursion; `fuel ≥ rest.card` is enough whenever
`0 < batch_size`. -/
def epochBatchesFuel (select : Finset ℕ → ℕ → List ℕ)
    (data_num batch_size : ℕ) : ℕ → Finset ℕ → List (List ℕ)
  | 0, _ => []
  | fuel + 1, rest =>
    if batch_size < rest.card then
      select rest batch_size ::
        epochBatchesFuel select data_num batch_size fuel
          (rest \ (select rest batch_size).toFinset)
    else
      [listOfRest rest]

/-- Row `t < max_frame_num` of one example's slice of the feature tensor:
`inputs` is allocated as zeros (line 154) and the example's frames are
copied into the leading `frame_num` rows (line 167). -/
def featureRow (max_frame_num input_size : ℕ) (m : List (List Int)) :
    List (List Int) :=
  (List.range max_frame_num).map fun t =>
    if h : t < m.length then m.get ⟨t, h⟩ else List.replicate input_size 0

/-- One example's row of a label tensor: allocated filled with `-1`
(lines 156–159) and the label sequence copied into the leading cells
(lines 168–171). -/
def labelRow (max_seq_len : ℕ) (l : List Int) : List Int :=
  (List.range max_seq_len).map fun t =>
    if h : t < l.length then l.get ⟨t, h⟩ else -1

/-- `max_frame_num` as computed in the sorted branch (line 142):
the frame count of the example at the last position of the pre-shuffle
selection, `self.input_list[sorted_indices[-1]].shape[0]`. -/
def max_frame_num_sorted (store : List ExampleData) (indices : List ℕ) : ℕ :=
  framesAt store (indices.getLast?.getD 0)

/-- `max_frame_num` as computed in the random branch (lines 195–196):
the maximum frame count over the drawn examples. -/
def max_frame_num_random (store : List ExampleData) (indices : List ℕ) : ℕ :=
  (indices.map (framesAt store)).foldr max 0

/-- `max_seq_len_char` (lines 145–146 / 199–200): maximum
character-label length over the drawn examples. -/
def max_seq_len_char (store : List ExampleData) (indices : List ℕ) : ℕ :=
  (indices.map (charLenAt store)).foldr max 0

/-- `max_seq_len_phone` (lines 147–148 / 201–202): maximum phone-label
length over the drawn examples. -/
def max_seq_len_phone (store : List ExampleData) (indices : List ℕ) : ℕ :=
  (indices.map (phoneLenAt store)).foldr max 0

/-- The five parallel outputs assembled by `next_batch`
(lines 153–174 / 204–225). -/
structure BatchTensors where
  inputs : List (List (List Int))
  labels_char : List (List Int)
  labels_phone : List (List Int)
  inputs_seq_len : List ℕ
  input_names : List String
deriving Repr, DecidableEq

/-- Batch assembly loop of `next_batch` (lines 163–174 / 214–225) with
the tensor dimensions `mfn` (`max_frame_num`), `mslc`
(`max_seq_len_char`), `mslp` (`max_seq_len_phone`) passed in as the code
computes them before the loop. -/
def assembleBatch (store : List ExampleData) (input_size mfn mslc mslp : ℕ)
    (indices : List ℕ) : BatchTensors :=
  { inputs := indices.map fun x =>
      featureRow mfn input_size (store.getD x dfltExample).input
    labels_char := indices.map fun x =>
      labelRow mslc (store.getD x dfltExample).labelChar
    labels_phone := indices.map fun x =>
      labelRow mslp (store.getD x dfltExample).labelPhone
    inputs_seq_len := indices.map fun x => framesAt store x
    input_names := indices.map fun x => (store.getD x dfltExample).name }

/-- Constructor check and storage of the effective batch size
(lines 36–43): `data_type` must be a recognized split, `batch_size`
must be divisible by `num_gpu`, and the object stores
`self.batch_size = batch_size * num_gpu`. -/
def init_check (data_type : String) (batch_size num_gpu : ℕ) :
    Except String ℕ :=
  if data_type ≠ "train" ∧ data_type ≠ "dev" ∧ data_type ≠ "test" then
    Except.error "data_type is train or dev or test."
  else if batch_size % num_gpu ≠ 0 then
    Except.error "batch_size shoule be by a factor of num_gpu."
  else
    Except.ok (batch_size * num_gpu)

/-- `self.batch_size = batch_size * num_gpu` (line 43). -/
def init_batch_size (batch_size num_gpu : ℕ) : ℕ :=
  batch_size * num_gpu

/-- Resolution of the optional `batch_size` argument of `next_batch`
(lines 125–126): `None` falls back to `self.batch_size`. -/
def resolve_batch_size (self_batch_size : ℕ) (batch_size_arg : Option ℕ) : ℕ :=
  batch_size_arg.getD self_batch_size

/-- Construction of the three path lists (lines 66–73): one traversal of
`self.frame_num_tuple_sorted` appends one entry to each of
`input_paths`, `label_char_paths`, `label_phone_paths`. -/
def build_paths (dataset_char_path dataset_phone_path : String)
    (frame_num_tuple_sorted : List (String × ℕ)) :
    List String × List String × List String :=
  ( frame_num_tuple_sorted.map fun p =>
      dataset_char_path ++ "/input/" ++ p.1 ++ ".npy"
  , frame_num_tuple_sorted.map fun p =>
      dataset_char_path ++ "/label/" ++ p.1 ++ ".npy"
  , frame_num_tuple_sorted.map fun p =>
      dataset_phone_path ++ "/label/" ++ p.1 ++ ".npy" )

/-- The label-count integrity check of the constructor (lines 74–76):
raise when `len(label_char_paths) != len(label_phone_paths)`. -/
def label_count_check (dataset_char_path dataset_phone_path : String)
    (frame_num_tuple_sorted : List (String × ℕ)) : Except String Unit :=
  let paths := build_paths dataset_char_path dataset_phone_path
    frame_num_tuple_sorted
  if paths.2.1.length ≠ paths.2.2.length then
    Except.error "The numbers of labels between character and phone are not same."
  else
    Except.ok ()

/-- `tf.split(value, num_gpu, axis=0)` on the batch axis: fails unless
the axis length is evenly divisible by `num_gpu`, otherwise yields the
`num_gpu` contiguous equal chunks. -/
def tfSplit {α : Type} (num_gpu : ℕ) (l : List α) :
    Except String (List (List α)) :=
  if num_gpu ∣ l.length then
    Except.ok ((List.range num_gpu).map fun g =>
      (l.drop (g * (l.length / num_gpu))).take (l.length / num_gpu))
  else
    Except.error "Cannot split a tensor evenly"

/-- The branch split of `next_batch` on `self.is_sorted`
(lines 131 and 179). -/
def draw_of (is_sorted : Bool) (data_num batch_size : ℕ)
    (sample : Finset ℕ → ℕ → List ℕ) (rest : Finset ℕ) : DrawResult :=
  if is_sorted then drawSorted data_num batch_size rest
  else drawRandom data_num batch_size sample rest

/-- `max_frame_num` as each branch computes it (line 142 in the sorted
branch, lines 195–196 in the random branch), over the pre-shuffle
indices. -/
def mfn_of (is_sorted : Bool) (store : List ExampleData)
    (indices : List ℕ) : ℕ :=
  if is_sorted then max_frame_num_sorted store indices
  else max_frame_num_random store indices

/-- Assembly of the five tensors from one draw: dimensions from the
pre-shuffle indices, contents in post-shuffle order (the shuffle is
applied exactly where the source invokes `random.shuffle`). -/
def assembled_of (store : List ExampleData) (input_size : ℕ)
    (is_sorted : Bool) (shuffle : List ℕ → List ℕ) (d : DrawResult) :
    BatchTensors :=
  assembleBatch store input_size (mfn_of is_sorted store d.indices)
    (max_seq_len_char store d.indices) (max_seq_len_phone store d.indices)
    (if d.shuffled then shuffle d.indices else d.indices)

/-- The five `tf.split` calls of the multi-GPU arm (lines 229–233); the
first indivisible tensor raises.  The per-GPU sparse encoding consumes
the chunks unchanged and is out of scope of the claims, so the model
returns the unsplit batch on success. -/
def gpuSplitStep (num_gpu : ℕ) (batch : BatchTensors) (newRest : Finset ℕ) :
    Except String (BatchTensors × Finset ℕ) :=
  match tfSplit num_gpu batch.inputs with
  | Except.error e => Except.error e
  | Except.ok _ =>
    match tfSplit num_gpu batch.labels_char with
    | Except.error e => Except.error e
    | Except.ok _ =>
      match tfSplit num_gpu batch.labels_phone with
      | Except.error e => Except.error e
      | Except.ok _ =>
        match tfSplit num_gpu batch.inputs_seq_len with
        | Except.error e => Except.error e
        | Except.ok _ =>
          match tfSplit num_gpu batch.input_names with
          | Except.error e => Except.error e
          | Except.ok _ => Except.ok (batch, newRest)

/-- `next_batch` (lines 108–245), state-passing over `self.rest`.
`shuffle` embeds `random.shuffle` (applied exactly where the source
invokes it), `sample` embeds `random.sample`. -/
def next_batch (store : List ExampleData) (data_num input_size : ℕ)
    (self_batch_size num_gpu : ℕ) (is_sorted : Bool)
    (shuffle : List ℕ → List ℕ) (sample : Finset ℕ → ℕ → List ℕ)
    (batch_size_arg : Option ℕ) (session : Bool) (rest : Finset ℕ) :
    Except String (BatchTensors × Finset ℕ) :=
  if session = false ∧ num_gpu ≠ 1 then
    Except.error "Set session when using multiple GPUs."
  else if 1 < num_gpu then
    gpuSplitStep num_gpu
      (assembled_of store input_size is_sorted shuffle
        (draw_of is_sorted data_num
          (resolve_batch_size self_batch_size batch_size_arg) sample rest))
      (draw_of is_sorted data_num
        (resolve_batch_size self_batch_size batch_size_arg) sample
        rest).newRest
  else
    Except.ok
      (assembled_of store input_size is_sorted shuffle
        (draw_of is_sorted data_num
          (resolve_batch_size self_batch_size batch_size_arg) sample rest),
      (draw_of is_sorted data_num
        (resolve_batch_size self_batch_size batch_size_arg) sample
        rest).newRest)

/-- The value of `self.rest` after a `next_batch` call: a raised Python
exception propagates before `self.rest` is reassigned, so the state is
unchanged on error. -/
def next_batch_newRest (store : List ExampleData) (data_num input_size : ℕ)
    (self_batch_size num_gpu : ℕ) (is_sorted : Bool)
    (shuffle : List ℕ → List ℕ) (sample : Finset ℕ → ℕ → List ℕ)
    (batch_size_arg : Option ℕ) (session : Bool) (rest : Finset ℕ) :
    Finset ℕ :=
  match next_batch store data_num input_size self_batch_size num_gpu
    is_sorted shuffle sample batch_size_arg session rest with
  | Except.ok r => r.2
  | Except.error _ => rest

/-- Well-behavedness of a non-final index selection, shared by
`list(rest)[:batch_size]` and `random.sample(list(rest), batch_size)`:
duplicate-free, of the requested size, drawn from the pool. -/
def SelOK (select : Finset ℕ → ℕ → List ℕ) : Prop :=
  ∀ rest batch_size, 0 < batch_size → batch_size < rest.card →
    (select rest batch_size).Nodup ∧
    (select rest batch_size).length = batch_size ∧
    ∀ x ∈ select rest batch_size, x ∈ rest

/-- Ascending order of the store by frame count: in sorted mode the
constructor loads examples in ascending `frame_num` order (lines 63–65,
`sorted(self.frame_num_dict.items(), key=lambda x: x[1])`). -/
def storeMono (store : List ExampleData) : Prop :=
  List.Pairwise (fun a b => a.input.length ≤ b.input.length) store

/-! ### Basic facts about `listOfRest` -/

lemma mem_listOfRest {rest : Finset ℕ} {x : ℕ} :
    x ∈ listOfRest rest ↔ x ∈ rest := by
  unfold listOfRest
  simp only [List.mem_filter, List.mem_range, decide_eq_true_eq]
  exact ⟨fun h => h.2,
    fun h => ⟨Nat.lt_succ_of_le (Finset.le_sup (f := id) h), h⟩⟩

lemma listOfRest_nodup (rest : Finset ℕ) : (listOfRest rest).Nodup :=
  (List.nodup_range _).filter _

lemma listOfRest_sorted_lt (rest : Finset ℕ) :
    (listOfRest rest).Sorted (· < ·) :=
  (List.sorted_lt_range _).filter _

lemma listOfRest_sorted (rest : Finset ℕ) :
    (listOfRest rest).Sorted (· ≤ ·) :=
  (listOfRest_sorted_lt rest).le_of_lt

lemma listOfRest_coe (rest : Finset ℕ) :
    (listOfRest rest : Multiset ℕ) = rest.val :=
  (Multiset.Nodup.ext (Multiset.coe_nodup.mpr (listOfRest_nodup rest))
    rest.nodup).mpr fun a => by
      rw [Multiset.mem_coe, mem_listOfRest, Finset.mem_def]

lemma listOfRest_length (rest : Finset ℕ) :
    (listOfRest rest).length = rest.card := by
  have h := congrArg Multiset.card (listOfRest_coe rest)
  rw [Multiset.coe_card] at h
  exact h

lemma listOfRest_ne_nil {rest : Finset ℕ} (h : rest.Nonempty) :
    listOfRest rest ≠ [] := by
  intro hnil
  have := listOfRest_length rest
  rw [hnil] at this
  simp only [List.length_nil] at this
  exact absurd (Finset.card_pos.mpr h) (by omega)

/-- The multiset of a duplicate-free list equals the multiset of the
finite set it enumerates. -/
lemma coe_toFinset_val {l : List ℕ} (h : l.Nodup) :
    (l.toFinset).val = (l : Multiset ℕ) :=
  (Multiset.Nodup.ext l.toFinset.nodup (Multiset.coe_nodup.mpr h)).mpr
    fun a => by rw [← Finset.mem_def, List.mem_toFinset, Multiset.mem_coe]

/-- Removing a duplicate-free selection from the pool and enumerating
what is left is, up to order, the same as enumerating the pool after
the selection: the single key step of the epoch partition argument. -/
lemma select_append_perm {rest : Finset ℕ} {sel : List ℕ}
    (hnd : sel.Nodup) (hsub : ∀ x ∈ sel, x ∈ rest) :
    (sel ++ listOfRest (rest \ sel.toFinset)).Perm (listOfRest rest) := by
  rw [← Multiset.coe_eq_coe, ← Multiset.coe_add, listOfRest_coe,
    listOfRest_coe, Finset.sdiff_val, coe_toFinset_val hnd]
  have hle : (sel : Multiset ℕ) ≤ rest.val := by
    rw [← coe_toFinset_val hnd]
    exact Finset.val_le_iff.mpr fun x hx =>
      hsub x (List.mem_toFinset.mp hx)
  exact add_tsub_cancel_of_le hle

lemma toFinset_subset_of_mem {rest : Finset ℕ} {sel : List ℕ}
    (hsub : ∀ x ∈ sel, x ∈ rest) : sel.toFinset ⊆ rest :=
  fun x hx => hsub x (List.mem_toFinset.mp hx)

lemma card_sdiff_toFinset {rest : Finset ℕ} {sel : List ℕ}
    (hnd : sel.Nodup) (hsub : ∀ x ∈ sel, x ∈ rest) :
    (rest \ sel.toFinset).card = rest.card - sel.length := by
  rw [Finset.card_sdiff (toFinset_subset_of_mem hsub)]
  congr 1
  have := congrArg Multiset.card (coe_toFinset_val hnd)
  rw [Multiset.coe_card] at this
  exact this

/-! ### The sorted-branch selection is well behaved -/

lemma takeSelect_selOK : SelOK takeSelect := by
  intro rest batch_size _hB hlt
  refine ⟨(List.take_sublist _ _).nodup (listOfRest_nodup rest), ?_, ?_⟩
  · rw [takeSelect, List.length_take, listOfRest_length]
    omega
  · intro x hx
    exact mem_listOfRest.mp ((List.take_sublist _ _).subset hx)

/-! ### Epoch partition -/

/-- The indices drawn over one epoch, concatenated, are a permutation of
the starting pool's ascending enumeration. -/
lemma epochBatchesFuel_flatten_perm {select : Finset ℕ → ℕ → List ℕ}
    (hsel : SelOK select) (data_num : ℕ) {batch_size : ℕ}
    (hB : 0 < batch_size) :
    ∀ fuel (rest : Finset ℕ), rest.card ≤ fuel →
      (epochBatchesFuel select data_num batch_size fuel rest).flatten.Perm
        (listOfRest rest) := by
  intro fuel
  induction fuel with
  | zero =>
    intro rest hcard
    have hempty : rest = ∅ := Finset.card_eq_zero.mp (by omega)
    subst hempty
    simp [epochBatchesFuel, listOfRest]
  | succ n ih =>
    intro rest hcard
    by_cases hc : batch_size < rest.card
    · obtain ⟨hnd, hlen, hsub⟩ := hsel rest batch_size hB hc
      rw [epochBatchesFuel, if_pos hc, List.flatten_cons]
      have hcard' :
          (rest \ (select rest batch_size).toFinset).card ≤ n := by
        rw [card_sdiff_toFinset hnd hsub, hlen]
        omega
      exact ((ih _ hcard').append_left _).trans (select_append_perm hnd hsub)
    · rw [epochBatchesFuel, if_neg hc]
      simp

/-- C1.  For every dataset with `data_num = N > 0` and every positive
batch size `B`, successive `next_batch` calls draw pairwise-disjoint
index sets until the remaining pool has size at most `B`, at which point
the whole remaining pool is returned and the pool is reset to the full
index set `[0, N)`; between two consecutive rollovers the drawn batches
partition `[0, N)`: their concatenation is a permutation of
`List.range N` (no index repeated, none omitted), and the drawn batches
are pairwise disjoint.  `select` abstracts the non-final selection of
either branch (`list(rest)[:B]` in sorted mode, `random.sample` in
random mode); `SelOK` states what both guarantee. -/
theorem C1_epoch_partition (N B : ℕ) (select : Finset ℕ → ℕ → List ℕ)
    (hN : 0 < N) (hB : 0 < B) (hsel : SelOK select) :
    (epochBatchesFuel select N B N (Finset.range N)).flatten.Perm
        (List.range N)
    ∧ List.Pairwise List.Disjoint (epochBatchesFuel select N B N (Finset.range N))
    ∧ ∀ rest : Finset ℕ, rest.card ≤ B →
        drawWith select N B rest = (listOfRest rest, Finset.range N) := by
  have hperm :
      (epochBatchesFuel select N B N (Finset.range N)).flatten.Perm
        (List.range N) := by
    have h1 := epochBatchesFuel_flatten_perm hsel N hB N
      (Finset.range N) (by rw [Finset.card_range])
    have h2 : (listOfRest (Finset.range N)).Perm (List.range N) := by
      rw [← Multiset.coe_eq_coe, listOfRest_coe, Finset.range_val,
        Multiset.range]
    exact h1.trans h2
  refine ⟨hperm, ?_, ?_⟩
  · have hnd : (epochBatchesFuel select N B N (Finset.range N)).flatten.Nodup :=
      hperm.symm.nodup (List.nodup_range N)
    exact (List.nodup_flatten.mp hnd).2
  · intro rest hcard
    rw [drawWith, if_neg (by omega)]

/-- Witness for C1 at `N = 3`, `B = 2` with the sorted-branch
selection. -/
theorem C1_epoch_partition_witness :
    (epochBatchesFuel takeSelect 3 2 3 (Finset.range 3)).flatten.Perm
        (List.range 3)
    ∧ List.Pairwise List.Disjoint (epochBatchesFuel takeSelect 3 2 3 (Finset.range 3))
    ∧ ∀ rest : Finset ℕ, rest.card ≤ 2 →
        drawWith takeSelect 3 2 rest = (listOfRest rest, Finset.range 3) :=
  C1_epoch_partition 3 2 takeSelect (by decide) (by decide) takeSelect_selOK

/-! ### Shuffle placement, batch-size default, guards -/

/-- C5 counterexample.  The claim states that the final undersized batch
in random mode is not shuffled; in the source the `random.shuffle` call
(line 192) sits inside the `else` branch of the random arm, so the final
batch is exactly the one that IS shuffled.  Concretely: random mode,
pool `{0, 1, 2}`, requested batch size `5` (final draw). -/
theorem C5_counterexample :
    ¬ (drawRandom 3 5 takeSelect (Finset.range 3)).shuffled = false := by
  decide

/-- C5 amended.  The within-batch shuffle is applied unconditionally in
sorted mode (line 151 runs in both branches), and in random mode it is
applied exactly to the final, pool-resetting batch (line 192 is inside
the `else` branch); non-final random batches receive no shuffle call
(their order comes from `random.sample` itself). -/
theorem C5_shuffle_policy (data_num batch_size : ℕ)
    (sample : Finset ℕ → ℕ → List ℕ) (rest : Finset ℕ) :
    (drawSorted data_num batch_size rest).shuffled = true
    ∧ (drawRandom data_num batch_size sample rest).shuffled
        = (drawRandom data_num batch_size sample rest).isFinal := by
  unfold drawSorted drawRandom
  by_cases hc : batch_size < rest.card <;> simp [hc]

/-- C6.  The constructor stores
`self.batch_size = batch_size * num_gpu` (line 43), and a `next_batch`
call with no explicit batch-size override draws
`batch_size * num_gpu` indices for a non-final batch — not
`batch_size` of them (when `num_gpu > 1` and `batch_size > 0`). -/
theorem C6_effective_batch_size (batch_size num_gpu data_num : ℕ)
    (rest : Finset ℕ) (hg : 1 < num_gpu) (hb : 0 < batch_size)
    (hcard : resolve_batch_size (init_batch_size batch_size num_gpu) none
      < rest.card) :
    init_batch_size batch_size num_gpu = batch_size * num_gpu
    ∧ (drawSorted data_num
        (resolve_batch_size (init_batch_size batch_size num_gpu) none)
        rest).indices.length = batch_size * num_gpu
    ∧ batch_size * num_gpu ≠ batch_size := by
  have hBeq : resolve_batch_size (init_batch_size batch_size num_gpu) none
      = batch_size * num_gpu := rfl
  refine ⟨rfl, ?_, ?_⟩
  · rw [drawSorted, if_pos hcard]
    dsimp only
    rw [List.length_take, listOfRest_length, hBeq]
    rw [hBeq] at hcard
    omega
  · intro h
    have h2 : batch_size * 2 ≤ batch_size * num_gpu :=
      Nat.mul_le_mul_left batch_size hg
    omega

/-- Witness for C6 at `batch_size = 2`, `num_gpu = 2`,
pool `{0, ..., 9}`. -/
theorem C6_effective_batch_size_witness :
    init_batch_size 2 2 = 2 * 2
    ∧ (drawSorted 10 (resolve_batch_size (init_batch_size 2 2) none)
        (Finset.range 10)).indices.length = 2 * 2
    ∧ 2 * 2 ≠ 2 :=
  C6_effective_batch_size 2 2 10 (Finset.range 10) (by decide) (by decide)
    (by decide)

/-- C7.  The constructor's integrity check (lines 74–76) fails exactly
when the character-label path list and the phone-label path list have
different lengths; since both lists are built by the same traversal of
`frame_num_tuple_sorted` (lines 66–73), their lengths are always equal
and the error branch is unreachable. -/
theorem C7_label_count_check (dataset_char_path dataset_phone_path : String)
    (frame_num_tuple_sorted : List (String × ℕ)) :
    (build_paths dataset_char_path dataset_phone_path
        frame_num_tuple_sorted).2.1.length
      = (build_paths dataset_char_path dataset_phone_path
        frame_num_tuple_sorted).2.2.length
    ∧ (¬ label_count_check dataset_char_path dataset_phone_path
          frame_num_tuple_sorted = Except.ok ()
        ↔ (build_paths dataset_char_path dataset_phone_path
            frame_num_tuple_sorted).2.1.length
          ≠ (build_paths dataset_char_path dataset_phone_path
            frame_num_tuple_sorted).2.2.length)
    ∧ label_count_check dataset_char_path dataset_phone_path
        frame_num_tuple_sorted = Except.ok () := by
  have hlen : (build_paths dataset_char_path dataset_phone_path
        frame_num_tuple_sorted).2.1.length
      = (build_paths dataset_char_path dataset_phone_path
        frame_num_tuple_sorted).2.2.length := by
    simp [build_paths]
  have hok : label_count_check dataset_char_path dataset_phone_path
      frame_num_tuple_sorted = Except.ok () := by
    rw [label_count_check]
    exact if_neg fun hne => hne hlen
  exact ⟨hlen, ⟨fun h => absurd hok h, fun h => absurd hlen h⟩, hok⟩

/-- C9.  Calling `next_batch` with `num_gpu ≠ 1` and no session raises
the error at call entry (lines 122–123), before any index is drawn, and
the epoch state `self.rest` is unchanged. -/
theorem C9_session_guard (store : List ExampleData)
    (data_num input_size self_batch_size num_gpu : ℕ) (is_sorted : Bool)
    (shuffle : List ℕ → List ℕ) (sample : Finset ℕ → ℕ → List ℕ)
    (batch_size_arg : Option ℕ) (rest : Finset ℕ) (hg : num_gpu ≠ 1) :
    next_batch store data_num input_size self_batch_size num_gpu is_sorted
        shuffle sample batch_size_arg false rest
      = Except.error "Set session when using multiple GPUs."
    ∧ next_batch_newRest store data_num input_size self_batch_size num_gpu
        is_sorted shuffle sample batch_size_arg false rest = rest := by
  have herr : next_batch store data_num input_size self_batch_size num_gpu
      is_sorted shuffle sample batch_size_arg false rest
      = Except.error "Set session when using multiple GPUs." := by
    rw [next_batch, if_pos ⟨rfl, hg⟩]
  exact ⟨herr, by rw [next_batch_newRest, herr]⟩

/-- Witness for C9: empty store, `num_gpu = 2`, pool `{0, 1}`. -/
theorem C9_session_guard_witness :
    next_batch [] 2 1 4 2 true id takeSelect none false (Finset.range 2)
      = Except.error "Set session when using multiple GPUs."
    ∧ next_batch_newRest [] 2 1 4 2 true id takeSelect none false
        (Finset.range 2) = Finset.range 2 :=
  C9_session_guard [] 2 1 4 2 true id takeSelect none (Finset.range 2)
    (by decide)

/-- C10.  While the dataset is non-empty and the requested batch size is
positive, both branches of `next_batch` select a non-empty index list,
and the pool left behind for the next call is again non-empty (the
non-final branch keeps `card - batch_size > 0` indices; the final branch
resets to the full non-empty range), so the empty-selection failure of
batch assembly is unreachable. -/
theorem C10_draw_nonempty (data_num batch_size : ℕ)
    (sample : Finset ℕ → ℕ → List ℕ) (rest : Finset ℕ)
    (hsample : SelOK sample) (hN : 0 < data_num) (hB : 0 < batch_size)
    (hrest : rest.Nonempty) :
    (drawSorted data_num batch_size rest).indices ≠ []
    ∧ (drawSorted data_num batch_size rest).newRest.Nonempty
    ∧ (drawRandom data_num batch_size sample rest).indices ≠ []
    ∧ (drawRandom data_num batch_size sample rest).newRest.Nonempty := by
  by_cases hc : batch_size < rest.card
  · obtain ⟨hnds, hlens, hsubs⟩ := takeSelect_selOK rest batch_size hB hc
    obtain ⟨hndr, hlenr, hsubr⟩ := hsample rest batch_size hB hc
    rw [takeSelect] at hnds hlens hsubs
    rw [drawSorted, if_pos hc, drawRandom, if_pos hc]
    dsimp only
    refine ⟨?_, ?_, ?_, ?_⟩
    · rw [← List.length_pos_iff_ne_nil, hlens]
      omega
    · rw [← Finset.card_pos, card_sdiff_toFinset hnds hsubs, hlens]
      omega
    · rw [← List.length_pos_iff_ne_nil, hlenr]
      omega
    · rw [← Finset.card_pos, card_sdiff_toFinset hndr hsubr, hlenr]
      omega
  · rw [drawSorted, if_neg hc, drawRandom, if_neg hc]
    dsimp only
    exact ⟨listOfRest_ne_nil hrest, Finset.nonempty_range_iff.mpr (by omega),
      listOfRest_ne_nil hrest, Finset.nonempty_range_iff.mpr (by omega)⟩

/-- Witness for C10 with pool `{0, 1, 2}` and batch size `2`. -/
theorem C10_draw_nonempty_witness :
    (drawSorted 3 2 (Finset.range 3)).indices ≠ []
    ∧ (drawSorted 3 2 (Finset.range 3)).newRest.Nonempty
    ∧ (drawRandom 3 2 takeSelect (Finset.range 3)).indices ≠ []
    ∧ (drawRandom 3 2 takeSelect (Finset.range 3)).newRest.Nonempty :=
  C10_draw_nonempty 3 2 takeSelect (Finset.range 3) takeSelect_selOK
    (by decide) (by decide) ⟨0, by decide⟩

/-! ### Padding correctness -/

lemma featureRow_length (mfn input_size : ℕ) (m : List (List Int)) :
    (featureRow mfn input_size m).length = mfn := by
  rw [featureRow, List.length_map, List.length_range]

lemma featureRow_getD {mfn : ℕ} (input_size : ℕ) {m : List (List Int)}
    {t : ℕ} (ht : t < mfn) :
    (featureRow mfn input_size m).getD t []
      = if h : t < m.length then m.get ⟨t, h⟩
        else List.replicate input_size 0 := by
  have hlen : t < (featureRow mfn input_size m).length := by
    rw [featureRow_length]; exact ht
  rw [List.getD_eq_getElem _ _ hlen]
  simp only [featureRow, List.getElem_map, List.getElem_range]

lemma labelRow_length (max_seq_len : ℕ) (l : List Int) :
    (labelRow max_seq_len l).length = max_seq_len := by
  rw [labelRow, List.length_map, List.length_range]

lemma labelRow_getD {max_seq_len : ℕ} {l : List Int} {t : ℕ}
    (ht : t < max_seq_len) :
    (labelRow max_seq_len l).getD t 0
      = if h : t < l.length then l.get ⟨t, h⟩ else -1 := by
  have hlen : t < (labelRow max_seq_len l).length := by
    rw [labelRow_length]; exact ht
  rw [List.getD_eq_getElem _ _ hlen]
  simp only [labelRow, List.getElem_map, List.getElem_range]

lemma getD_map_lt {α β : Type} (f : α → β) (l : List α) (i : ℕ)
    (hi : i < l.length) (d : β) (d' : α) :
    (l.map f).getD i d = f (l.getD i d') := by
  rw [List.getD_eq_getElem _ _ (by rw [List.length_map]; exact hi),
    List.getElem_map, List.getD_eq_getElem _ _ hi]

/-- C2.  For every assembled batch and every batch position `i` holding
example `x` (provided the tensor dimensions dominate `x`'s true sizes,
which lines 141–148 / 194–202 guarantee by taking batch maxima): the
feature rows of position `i` at frame indices at or beyond `x`'s frame
count are zero rows; its leading feature rows are `x`'s feature matrix
unchanged; the label cells at or beyond the label length are the
sentinel `-1` in both label tensors; the leading label cells are `x`'s
label sequences unchanged. -/
theorem C2_padding (store : List ExampleData) (input_size mfn mslc mslp : ℕ)
    (indices : List ℕ) (i : ℕ) (hi : i < indices.length)
    (hf : framesAt store (indices.getD i 0) ≤ mfn)
    (hc : charLenAt store (indices.getD i 0) ≤ mslc)
    (hp : phoneLenAt store (indices.getD i 0) ≤ mslp) :
    (∀ t, framesAt store (indices.getD i 0) ≤ t → t < mfn →
      ((assembleBatch store input_size mfn mslc mslp indices).inputs.getD
          i []).getD t [] = List.replicate input_size 0)
    ∧ (∀ t, t < framesAt store (indices.getD i 0) →
      ((assembleBatch store input_size mfn mslc mslp indices).inputs.getD
          i []).getD t []
        = (store.getD (indices.getD i 0) dfltExample).input.getD t [])
    ∧ (∀ c, charLenAt store (indices.getD i 0) ≤ c → c < mslc →
      ((assembleBatch store input_size mfn mslc mslp indices).labels_char.getD
          i []).getD c 0 = -1)
    ∧ (∀ c, c < charLenAt store (indices.getD i 0) →
      ((assembleBatch store input_size mfn mslc mslp indices).labels_char.getD
          i []).getD c 0
        = (store.getD (indices.getD i 0) dfltExample).labelChar.getD c 0)
    ∧ (∀ c, phoneLenAt store (indices.getD i 0) ≤ c → c < mslp →
      ((assembleBatch store input_size mfn mslc mslp indices).labels_phone.getD
          i []).getD c 0 = -1)
    ∧ (∀ c, c < phoneLenAt store (indices.getD i 0) →
      ((assembleBatch store input_size mfn mslc mslp indices).labels_phone.getD
          i []).getD c 0
        = (store.getD (indices.getD i 0) dfltExample).labelPhone.getD c 0) := by
  have hrow : (assembleBatch store input_size mfn mslc mslp indices).inputs.getD i []
      = featureRow mfn input_size
          (store.getD (indices.getD i 0) dfltExample).input := by
    rw [assembleBatch]
    exact getD_map_lt _ indices i hi [] 0
  have hrowc : (assembleBatch store input_size mfn mslc mslp indices).labels_char.getD i []
      = labelRow mslc (store.getD (indices.getD i 0) dfltExample).labelChar := by
    rw [assembleBatch]
    exact getD_map_lt _ indices i hi [] 0
  have hrowp : (assembleBatch store input_size mfn mslc mslp indices).labels_phone.getD i []
      = labelRow mslp (store.getD (indices.getD i 0) dfltExample).labelPhone := by
    rw [assembleBatch]
    exact getD_map_lt _ indices i hi [] 0
  refine ⟨?_, ?_, ?_, ?_, ?_, ?_⟩
  · intro t htf htm
    rw [hrow, featureRow_getD input_size htm,
      dif_neg (by rw [framesAt] at htf; omega)]
  · intro t htf
    rw [hrow, featureRow_getD input_size (by omega),
      dif_pos (by rw [framesAt] at htf; exact htf)]
    rw [framesAt] at htf
    rw [List.get_eq_getElem, List.getD_eq_getElem _ _ htf]
  · intro c hcf hcm
    rw [hrowc, labelRow_getD hcm, dif_neg (by rw [charLenAt] at hcf; omega)]
  · intro c hcf
    rw [charLenAt] at hcf
    rw [hrowc, labelRow_getD (by rw [charLenAt] at hc; omega), dif_pos hcf]
    rw [List.get_eq_getElem, List.getD_eq_getElem _ _ hcf]
  · intro c hcf hcm
    rw [hrowp, labelRow_getD hcm, dif_neg (by rw [phoneLenAt] at hcf; omega)]
  · intro c hcf
    rw [phoneLenAt] at hcf
    rw [hrowp, labelRow_getD (by rw [phoneLenAt] at hp; omega), dif_pos hcf]
    rw [List.get_eq_getElem, List.getD_eq_getElem _ _ hcf]

/-- A small concrete three-example store with ascending frame counts
(frame counts 1, 2, 3; feature width 1), used by concrete witnesses. -/
def egStore : List ExampleData :=
  [ { input := [[1]], labelChar := [5], labelPhone := [7, 8], name := "a" }
  , { input := [[2], [3]], labelChar := [5, 6], labelPhone := [7], name := "b" }
  , { input := [[4], [5], [6]], labelChar := [4], labelPhone := [9], name := "c" } ]

/-- Witness for C2 on `egStore`, batch `[0, 1]`, position `1`,
dimensions `mfn = 2`, `mslc = 2`, `mslp = 1`. -/
theorem C2_padding_witness :
    (1 < ([0, 1] : List ℕ).length
      ∧ framesAt egStore (([0, 1] : List ℕ).getD 1 0) ≤ 2
      ∧ charLenAt egStore (([0, 1] : List ℕ).getD 1 0) ≤ 2
      ∧ phoneLenAt egStore (([0, 1] : List ℕ).getD 1 0) ≤ 1)
    ∧ ((∀ t, framesAt egStore (([0, 1] : List ℕ).getD 1 0) ≤ t → t < 2 →
        ((assembleBatch egStore 1 2 2 1 [0, 1]).inputs.getD 1 []).getD t []
          = List.replicate 1 0)
    ∧ (∀ t, t < framesAt egStore (([0, 1] : List ℕ).getD 1 0) →
        ((assembleBatch egStore 1 2 2 1 [0, 1]).inputs.getD 1 []).getD t []
          = (egStore.getD (([0, 1] : List ℕ).getD 1 0) dfltExample).input.getD t [])
    ∧ (∀ c, charLenAt egStore (([0, 1] : List ℕ).getD 1 0) ≤ c → c < 2 →
        ((assembleBatch egStore 1 2 2 1 [0, 1]).labels_char.getD 1 []).getD c 0
          = -1)
    ∧ (∀ c, c < charLenAt egStore (([0, 1] : List ℕ).getD 1 0) →
        ((assembleBatch egStore 1 2 2 1 [0, 1]).labels_char.getD 1 []).getD c 0
          = (egStore.getD (([0, 1] : List ℕ).getD 1 0) dfltExample).labelChar.getD c 0)
    ∧ (∀ c, phoneLenAt egStore (([0, 1] : List ℕ).getD 1 0) ≤ c → c < 1 →
        ((assembleBatch egStore 1 2 2 1 [0, 1]).labels_phone.getD 1 []).getD c 0
          = -1)
    ∧ (∀ c, c < phoneLenAt egStore (([0, 1] : List ℕ).getD 1 0) →
        ((assembleBatch egStore 1 2 2 1 [0, 1]).labels_phone.getD 1 []).getD c 0
          = (egStore.getD (([0, 1] : List ℕ).getD 1 0) dfltExample).labelPhone.getD c 0)) :=
  ⟨⟨by decide, by decide, by decide, by decide⟩,
    C2_padding egStore 1 2 2 1 [0, 1] 1 (by decide) (by decide) (by decide)
      (by decide)⟩

/-! ### Sorted-mode ordering -/

lemma framesAt_mono {store : List ExampleData} (h : storeMono store)
    {x y : ℕ} (hxy : x ≤ y) (hy : y < store.length) :
    framesAt store x ≤ framesAt store y := by
  rcases eq_or_lt_of_le hxy with rfl | hlt
  · exact le_refl _
  · have hx : x < store.length := lt_trans hlt hy
    have hrel := List.pairwise_iff_getElem.mp h x y hx hy hlt
    rw [framesAt, framesAt, List.getD_eq_getElem _ _ hx,
      List.getD_eq_getElem _ _ hy]
    exact hrel

/-- C3.  In sorted mode, for every non-final batch, the frame count of
every drawn example is at most the frame count of every example still in
the pool: the draw takes an ascending prefix of the ascending pool
enumeration, and in sorted mode the store is ascending by frame count
(lines 63–65). -/
theorem C3_sorted_cross_batch (store : List ExampleData)
    (data_num batch_size : ℕ) (rest : Finset ℕ)
    (hmono : storeMono store)
    (hbound : ∀ x ∈ rest, x < store.length)
    (hnf : batch_size < rest.card) :
    ∀ x ∈ (drawSorted data_num batch_size rest).indices,
      ∀ y ∈ (drawSorted data_num batch_size rest).newRest,
        framesAt store x ≤ framesAt store y := by
  rw [drawSorted, if_pos hnf]
  dsimp only
  intro x hx y hy
  have hyr : y ∈ rest := (Finset.mem_sdiff.mp hy).1
  have hynt : y ∉ (List.take batch_size (listOfRest rest)).toFinset :=
    (Finset.mem_sdiff.mp hy).2
  have hyl : y ∈ listOfRest rest := mem_listOfRest.mpr hyr
  have hyd : y ∈ (listOfRest rest).drop batch_size := by
    rw [← List.take_append_drop batch_size (listOfRest rest)] at hyl
    rcases List.mem_append.mp hyl with hmem | hmem
    · exact absurd (List.mem_toFinset.mpr hmem) hynt
    · exact hmem
  exact framesAt_mono hmono
    ((listOfRest_sorted rest).rel_of_mem_take_of_mem_drop hx hyd)
    (hbound y hyr)

/-- Witness for C3 on `egStore` (frame counts 1, 2, 3), pool
`{0, 1, 2}`, batch size 1 (non-final). -/
theorem C3_sorted_cross_batch_witness :
    0 ∈ (drawSorted 3 1 (Finset.range 3)).indices
    ∧ 1 ∈ (drawSorted 3 1 (Finset.range 3)).newRest
    ∧ framesAt egStore 0 ≤ framesAt egStore 1 :=
  ⟨by decide, by decide,
    C3_sorted_cross_batch egStore 3 1 (Finset.range 3)
      (by unfold storeMono; decide) (by decide) (by decide) 0 (by decide) 1
      (by decide)⟩

/-! ### Batch-local maxima and tensor shape -/

lemma le_foldr_max {l : List ℕ} {x : ℕ} (h : x ∈ l) :
    x ≤ l.foldr max 0 := by
  induction l with
  | nil => cases h
  | cons a t ih =>
    rcases List.mem_cons.mp h with rfl | ht
    · exact le_max_left _ _
    · exact le_trans (ih ht) (le_max_right _ _)

lemma foldr_max_mem {l : List ℕ} (h : l ≠ []) : l.foldr max 0 ∈ l := by
  induction l with
  | nil => exact absurd rfl h
  | cons a t ih =>
    cases t with
    | nil => simp
    | cons b u =>
      rw [List.foldr_cons]
      rcases le_total (List.foldr max 0 (b :: u)) a with hle | hle
      · rw [max_eq_left hle]
        exact List.mem_cons_self _ _
      · rw [max_eq_right hle]
        exact List.mem_cons_of_mem _ (ih (by simp))

lemma mem_le_getLast {l : List ℕ} (hs : l.Sorted (· ≤ ·)) {x : ℕ}
    (hx : x ∈ l) (hne : l ≠ []) : x ≤ l.getLast hne := by
  obtain ⟨n, hn, rfl⟩ := List.mem_iff_getElem.mp hx
  rw [List.getLast_eq_getElem]
  rcases Nat.lt_or_ge n (l.length - 1) with hlt | hge
  · exact List.pairwise_iff_getElem.mp hs n (l.length - 1) hn (by omega) hlt
  · have hn1 : n = l.length - 1 := by omega
    subst hn1
    exact le_refl _

/-- C4.  For every assembled batch, the feature tensor has shape
`(len(indices), M, input_size)` with `M` the maximum frame count over
exactly the drawn examples (so no example's frames are truncated), and
in sorted mode — ascending pre-shuffle selection over an
ascending-by-frame-count store — the frame count of the example at the
last position of the pre-shuffle selection equals that batch-local
maximum, which is how line 142 computes it. -/
theorem C4_batch_max_shape (store : List ExampleData)
    (input_size mslc mslp : ℕ) (indices : List ℕ) (hne : indices ≠ [])
    (hwf : ∀ e ∈ store, ∀ row ∈ e.input, row.length = input_size)
    (hbound : ∀ x ∈ indices, x < store.length) :
    (∀ x ∈ indices, framesAt store x ≤ max_frame_num_random store indices)
    ∧ (∃ x ∈ indices,
        framesAt store x = max_frame_num_random store indices)
    ∧ (assembleBatch store input_size (max_frame_num_random store indices)
        mslc mslp indices).inputs.length = indices.length
    ∧ (∀ row ∈ (assembleBatch store input_size
          (max_frame_num_random store indices) mslc mslp indices).inputs,
        row.length = max_frame_num_random store indices
        ∧ ∀ cell ∈ row, cell.length = input_size)
    ∧ (indices.Sorted (· ≤ ·) → storeMono store →
        max_frame_num_sorted store indices
          = max_frame_num_random store indices) := by
  have hub : ∀ x ∈ indices,
      framesAt store x ≤ max_frame_num_random store indices := by
    intro x hx
    exact le_foldr_max (List.mem_map_of_mem _ hx)
  have hattain : ∃ x ∈ indices,
      framesAt store x = max_frame_num_random store indices := by
    have hmm : max_frame_num_random store indices
        ∈ indices.map (framesAt store) :=
      foldr_max_mem (by simp [hne])
    obtain ⟨x, hx, hfx⟩ := List.mem_map.mp hmm
    exact ⟨x, hx, hfx⟩
  refine ⟨hub, hattain, ?_, ?_, ?_⟩
  · rw [assembleBatch]
    exact List.length_map _ _
  · intro row hrow
    rw [assembleBatch] at hrow
    obtain ⟨x, hx, rfl⟩ := List.mem_map.mp hrow
    refine ⟨featureRow_length _ _ _, ?_⟩
    intro cell hcell
    rw [featureRow] at hcell
    obtain ⟨t, _ht, rfl⟩ := List.mem_map.mp hcell
    by_cases hlt : t < (store.getD x dfltExample).input.length
    · rw [dif_pos hlt]
      have hxs : x < store.length := hbound x hx
      have hmem : store.getD x dfltExample ∈ store := by
        rw [List.getD_eq_getElem _ _ hxs]
        exact List.getElem_mem hxs
      exact hwf _ hmem _ (List.get_mem _ _ hlt)
    · rw [dif_neg hlt]
      exact List.length_replicate _ _
  · intro hsorted hmono
    have hlast : indices.getLast?.getD 0 = indices.getLast hne := by
      rw [List.getLast?_eq_getLast indices hne]
      rfl
    rw [max_frame_num_sorted, hlast]
    refine le_antisymm (hub _ (List.getLast_mem hne)) ?_
    obtain ⟨x, hx, hfx⟩ := hattain
    rw [← hfx]
    exact framesAt_mono hmono (mem_le_getLast hsorted hx hne)
      (hbound _ (List.getLast_mem hne))

/-- Witness for C4 on `egStore` with batch `[0, 2]`. -/
theorem C4_batch_max_shape_witness :
    (∀ x ∈ ([0, 2] : List ℕ),
        framesAt egStore x ≤ max_frame_num_random egStore [0, 2])
    ∧ (∃ x ∈ ([0, 2] : List ℕ),
        framesAt egStore x = max_frame_num_random egStore [0, 2])
    ∧ (assembleBatch egStore 1 (max_frame_num_random egStore [0, 2])
        2 2 [0, 2]).inputs.length = ([0, 2] : List ℕ).length
    ∧ (∀ row ∈ (assembleBatch egStore 1
          (max_frame_num_random egStore [0, 2]) 2 2 [0, 2]).inputs,
        row.length = max_frame_num_random egStore [0, 2]
        ∧ ∀ cell ∈ row, cell.length = 1)
    ∧ (([0, 2] : List ℕ).Sorted (· ≤ ·) → storeMono egStore →
        max_frame_num_sorted egStore [0, 2]
          = max_frame_num_random egStore [0, 2]) :=
  C4_batch_max_shape egStore 1 2 2 [0, 2] (by decide) (by decide) (by decide)

/-! ### Multi-GPU split of the final undersized batch -/

/-- C8.  With `num_gpu > 1`, `next_batch` splits every batch tensor into
`num_gpu` chunks along the batch axis; on a final undersized batch whose
size is not divisible by `num_gpu`, the first `tf.split` call
(line 229) fails — even though the construction-time check
`batch_size % num_gpu == 0` (line 38) passed.  The state `rest` is any
pool small enough to trigger the final draw (the full pool right after
construction already is one whenever
`data_num ≤ batch_size * num_gpu`). -/
theorem C8_final_split_error (store : List ExampleData)
    (data_num input_size batch_size num_gpu : ℕ)
    (shuffle : List ℕ → List ℕ) (sample : Finset ℕ → ℕ → List ℕ)
    (rest : Finset ℕ)
    (hcheck : init_check "train" batch_size num_gpu
        = Except.ok (batch_size * num_gpu))
    (hg : 1 < num_gpu)
    (hshuf : ∀ l : List ℕ, (shuffle l).length = l.length)
    (hfinal : rest.card
      ≤ resolve_batch_size (init_batch_size batch_size num_gpu) none)
    (hndvd : ¬ num_gpu ∣ rest.card) :
    next_batch store data_num input_size (init_batch_size batch_size num_gpu)
        num_gpu true shuffle sample none true rest
      = Except.error "Cannot split a tensor evenly" := by
  have hguard : ¬ ((true : Bool) = false ∧ num_gpu ≠ 1) := by simp
  rw [next_batch, if_neg hguard, if_pos hg]
  have hd : draw_of true data_num
      (resolve_batch_size (init_batch_size batch_size num_gpu) none) sample
      rest
      = { indices := listOfRest rest, newRest := Finset.range data_num,
          isFinal := true, shuffled := true } := by
    rw [draw_of, if_pos rfl, drawSorted, if_neg (by omega)]
  rw [hd]
  have hlen : (assembled_of store input_size true shuffle
      { indices := listOfRest rest, newRest := Finset.range data_num,
        isFinal := true, shuffled := true }).inputs.length = rest.card := by
    rw [assembled_of, assembleBatch]
    dsimp only
    rw [if_pos rfl, List.length_map, hshuf, listOfRest_length]
  have hsplit : tfSplit num_gpu (assembled_of store input_size true shuffle
      { indices := listOfRest rest, newRest := Finset.range data_num,
        isFinal := true, shuffled := true }).inputs
      = Except.error "Cannot split a tensor evenly" := by
    rw [tfSplit, if_neg]
    rw [hlen]
    exact hndvd
  rw [gpuSplitStep, hsplit]

/-- Witness for C8: `egStore` (3 examples), constructor
`batch_size = 2`, `num_gpu = 2` (check `2 % 2 == 0` passes, effective
batch size 4), full initial pool `{0, 1, 2}`: the final draw has 3
examples and `3 % 2 ≠ 0`. -/
theorem C8_final_split_error_witness :
    (init_check "train" 2 2 = Except.ok (2 * 2)
      ∧ 1 < 2
      ∧ (∀ l : List ℕ, (id l).length = l.length)
      ∧ (Finset.range 3).card
          ≤ resolve_batch_size (init_batch_size 2 2) none
      ∧ ¬ 2 ∣ (Finset.range 3).card)
    ∧ next_batch egStore 3 1 (init_batch_size 2 2) 2 true id takeSelect none
        true (Finset.range 3) = Except.error "Cannot split a tensor evenly" :=
  ⟨⟨rfl, by decide, fun _ => rfl, by decide, by decide⟩,
    C8_final_split_error egStore 3 1 2 2 id takeSelect (Finset.range 3) rfl
      (by decide) (fun _ => rfl) (by decide) (by decide)⟩

end TimitMultitaskCtc
